import Mathlib

/-!
Shallow embedding of the spaced-repetition scheduling engine of this
repository (`src/app.component.ts`): schedule generation, outcome
processing on review completion, mastery scoring, and the activity
heatmap projection.

Timestamps are modelled as exact rationals (milliseconds since an
arbitrary epoch), so that the JavaScript arithmetic on `Date.getTime()`
values — including the `* 1.3` stretch of the easy branch — is embedded
exactly.  Calendar days (`toISOString().split('T')[0]`) become the floor
of the timestamp divided by the number of milliseconds in a day.
-/

attribute [local semireducible] Rat.mul Rat.inv Rat.add Rat.sub

/-- `'initial' | 'standard' | 'final' | 'recovery'` from `ReviewSession.type`. -/
inductive SessionType where
  | initial
  | standard
  | final
  | recovery
deriving DecidableEq, Repr

/-- `'hard' | 'good' | 'easy'` from `ReviewSession.rating`. -/
inductive Rating where
  | hard
  | good
  | easy
deriving DecidableEq, Repr

/-- One scheduled or completed study event (interface `ReviewSession`). -/
structure ReviewSession where
  date : ℚ
  completed : Bool
  completedDate : Option ℚ := none
  interval : ℤ
  type : SessionType
  rating : Option Rating := none
deriving DecidableEq, Repr

/-- The `nextReviewDate` field: an ISO timestamp or one of the two
sentinel strings `'Completed'` / `'No Reviews Scheduled'`. -/
inductive NextReview where
  | due (date : ℚ)
  | sentinelCompleted
  | sentinelNoReviews
deriving DecidableEq, Repr

/-- One subject under study (interface `Topic`). -/
structure Topic where
  id : String
  name : String
  addedDate : ℚ
  examDate : Option ℚ := none
  complexity : ℚ
  subtopics : List String
  summary : String
  reviews : List ReviewSession
  nextReviewDate : NextReview
  mastery : ℤ
  notes : String := ""
deriving DecidableEq, Repr

/-- `1000 * 60 * 60 * 24`, the divisor used throughout the source. -/
def msPerDay : ℚ := 86400000

/-- The UTC calendar day of a timestamp (`toISOString().split('T')[0]`). -/
def dayOf (t : ℚ) : ℤ := ⌊t / msPerDay⌋

/-- JavaScript `Math.round` (round half toward positive infinity). -/
def jsRound (q : ℚ) : ℤ := ⌊q + 1/2⌋

/-- `Math.max(1.3, 2.5 - complexity * 0.12)` from `generateSchedule`. -/
def multiplierFor (complexity : ℚ) : ℚ := max (13/10) (5/2 - complexity * (12/100))

/-- The `while (maxReviews > 0)` loop of `generateSchedule`: emit a
session at `runningDate` unless the exam date is strictly exceeded, then
advance the interval by the multiplier and the date by `ceil(interval)`
days. -/
def genLoop (mult : ℚ) (examDate : Option ℚ) :
    ℕ → ℚ → ℚ → Bool → List ReviewSession
  | 0, _, _, _ => []
  | fuel + 1, interval, runningDate, isFirst =>
    if (match examDate with
        | some e => decide (e < runningDate)
        | none => false) then []
    else
      { date := runningDate, completed := false, interval := jsRound interval,
        type := if isFirst then SessionType.initial else SessionType.standard }
      :: genLoop mult examDate fuel (interval * mult)
          (runningDate + (⌈interval * mult⌉ : ℚ) * msPerDay) false

/-- A pending `final` session as pushed by the exam-date reconciliation. -/
def finalSession (date : ℚ) (interval : ℤ) : ReviewSession :=
  { date := date, completed := false, interval := interval, type := SessionType.final }

/-- The `if (examDate)` reconciliation block after the loop of
`generateSchedule`: an empty schedule gets a single `final` session on
the exam date with interval 0; otherwise a `final` session two days
before the exam is appended when the gap in days exceeds 4 and that date
is strictly after the last session. -/
def examReconcile (e : ℚ) (schedule : List ReviewSession) : List ReviewSession :=
  match schedule.getLast? with
  | none => [finalSession e 0]
  | some lastReview =>
    if 4 < ⌈(e - lastReview.date) / msPerDay⌉ then
      if lastReview.date < e - 2 * msPerDay then
        schedule ++ [finalSession (e - 2 * msPerDay) (⌈(e - lastReview.date) / msPerDay⌉ - 2)]
      else schedule
    else schedule

/-- `generateSchedule(complexity, examDateStr)`: the capped exponential
loop followed by the exam-date reconciliation. -/
def generateSchedule (now : ℚ) (complexity : ℚ) (examDate : Option ℚ) :
    List ReviewSession :=
  let schedule := genLoop (multiplierFor complexity) examDate 20 1 (now + msPerDay) true
  match examDate with
  | none => schedule
  | some e => examReconcile e schedule

/-- `reviews.sort((a, b) => new Date(a.date).getTime() - new Date(b.date).getTime())`.
JavaScript `Array.prototype.sort` is a stable sort, and all stable sorts
of a list under the same (total, transitive) comparison agree, so it is
modelled by a stable sort (insertion sort, which the kernel can
evaluate). -/
def sortByDate (l : List ReviewSession) : List ReviewSession :=
  List.insertionSort (fun a b => a.date ≤ b.date) l

/-- The pending `recovery` session pushed by the `hard` branch. -/
def recoverySession (tomorrow : ℚ) : ReviewSession :=
  { date := tomorrow, completed := false, interval := 1, type := SessionType.recovery }

/-- `{ ...reviews[reviewIndex], completed: true, rating, completedDate: now }`. -/
def markCompleted (now : ℚ) (rating : Rating) (r : ReviewSession) : ReviewSession :=
  { r with completed := true, rating := some rating, completedDate := some now }

/-- `reviews.findIndex((r, idx) => idx > reviewIndex && !r.completed && r.type !== 'final')`. -/
def findNextIdx (l : List ReviewSession) (reviewIndex : ℕ) : Option ℕ :=
  (List.findIdx? (fun r => !r.completed && !decide (r.type = SessionType.final))
      (l.drop (reviewIndex + 1))).map (· + (reviewIndex + 1))

/-- The date/interval update of the `easy` branch applied at a known
index: `newGap = (oldDate - now) * 1.3`, date `now + newGap`, interval
`ceil(newGap in days)`, then re-sort. -/
def easyUpdateAt (now : ℚ) (reviews : List ReviewSession) (nextIndex : ℕ) :
    List ReviewSession :=
  match reviews[nextIndex]? with
  | none => reviews
  | some nextReview =>
    let newDiff := (nextReview.date - now) * (13/10)
    sortByDate (reviews.set nextIndex
      { nextReview with date := now + newDiff, interval := ⌈newDiff / msPerDay⌉ })

/-- The `easy` branch: stretch the next pending non-final session's gap
by 1.3 relative to now, recompute its interval, and re-sort. -/
def easyStretch (now : ℚ) (reviewIndex : ℕ) (reviews : List ReviewSession) :
    List ReviewSession :=
  match findNextIdx reviews reviewIndex with
  | none => reviews
  | some nextIndex => easyUpdateAt now reviews nextIndex

/-- The rating-dependent rescheduling block of `markReviewComplete`. -/
def applyRating (now : ℚ) (rating : Rating) (reviewIndex : ℕ)
    (reviews : List ReviewSession) : List ReviewSession :=
  match rating with
  | Rating.hard =>
    if reviews.any (fun r => decide (dayOf r.date = dayOf (now + msPerDay))) then
      reviews
    else
      sortByDate (reviews ++ [recoverySession (now + msPerDay)])
  | Rating.easy => easyStretch now reviewIndex reviews
  | Rating.good => reviews

/-- The mastery recomputation at the end of `markReviewComplete`:
`round((goodOrEasyCount / completedCount) * 100)`, or 0 with no
completed session. -/
def masteryOf (reviews : List ReviewSession) : ℤ :=
  let completedCount := (reviews.filter (fun r => r.completed)).length
  let goodOrEasyCount := (reviews.filter (fun r =>
    r.completed && (decide (r.rating = some Rating.good) ||
                    decide (r.rating = some Rating.easy)))).length
  if 0 < completedCount then
    jsRound ((goodOrEasyCount : ℚ) / (completedCount : ℚ) * 100)
  else 0

/-- `reviews.find(r => !r.completed && new Date(r.date) >= new Date())`,
mapped to the `nextReviewDate` field. -/
def nextReviewOf (now : ℚ) (reviews : List ReviewSession) : NextReview :=
  match reviews.find? (fun r => !r.completed && decide (now ≤ r.date)) with
  | some r => NextReview.due r.date
  | none => NextReview.sentinelCompleted

/-- The body of `markReviewComplete` for the targeted topic once the
index of the session whose date equals the target date is known: mark it
completed, apply the rating-dependent rescheduling, and recompute the
derived `mastery` and `nextReviewDate` fields. -/
def completeReviewAt (now : ℚ) (rating : Rating) (reviewIndex : ℕ) (t : Topic) : Topic :=
  match t.reviews[reviewIndex]? with
  | none => t
  | some r0 =>
    let reviews2 := applyRating now rating reviewIndex
      (t.reviews.set reviewIndex (markCompleted now rating r0))
    { t with reviews := reviews2,
             mastery := masteryOf reviews2,
             nextReviewDate := nextReviewOf now reviews2 }

/-- The per-topic body of `markReviewComplete` for the targeted topic. -/
def completeReview (now : ℚ) (reviewDate : ℚ) (rating : Rating) (t : Topic) : Topic :=
  match List.findIdx? (fun r => decide (r.date = reviewDate)) t.reviews with
  | none => t
  | some reviewIndex => completeReviewAt now rating reviewIndex t

/-- `markReviewComplete(topicId, reviewDate, rating)` over the whole
topic collection. -/
def markReviewComplete (now : ℚ) (topicId : String) (reviewDate : ℚ)
    (rating : Rating) (topics : List Topic) : List Topic :=
  topics.map (fun t => if t.id = topicId then completeReview now reviewDate rating t else t)

/-- `deleteTopic(id)`: `list.filter(t => t.id !== id)`. -/
def deleteTopic (id : String) (topics : List Topic) : List Topic :=
  topics.filter (fun t => !decide (t.id = id))

/-- One cell of the 60-day activity heatmap grid. -/
structure HeatCell where
  day : ℤ
  count : ℕ
  intensity : ℕ
deriving DecidableEq, Repr

/-- The day a completed session is bucketed under:
`(r.completedDate || r.date).split('T')[0]`. -/
def completionDay (r : ReviewSession) : ℤ := dayOf (r.completedDate.getD r.date)

/-- The count the heatmap's `Map` assigns to a calendar day: the number
of completed sessions across all topics bucketed under that day. -/
def heatCount (topics : List Topic) (d : ℤ) : ℕ :=
  List.countP (fun r => r.completed && decide (completionDay r = d))
    (topics.flatMap (fun t => t.reviews))

/-- The raw-count-to-intensity mapping of `activityHeatmap`. -/
def intensityOf (count : ℕ) : ℕ :=
  if 8 < count then 4
  else if 5 < count then 3
  else if 2 < count then 2
  else if 0 < count then 1
  else 0

/-- The `activityHeatmap` computed grid: one cell per day, for the 60
days `i = 59, …, 0` days before now. -/
def activityHeatmap (now : ℚ) (topics : List Topic) : List HeatCell :=
  (List.range 60).reverse.map (fun (i : ℕ) =>
    let d := dayOf (now - (i : ℚ) * msPerDay)
    let c := heatCount topics d
    { day := d, count := c, intensity := intensityOf c })

/-- A sample topic used to instantiate hypotheses of several theorems:
two pending sessions, one and two days after epoch. -/
def sampleTopic : Topic :=
  { id := "a", name := "t", addedDate := 0, complexity := 5, subtopics := [], summary := "",
    reviews := [ { date := 86400000, completed := false, interval := 1,
                   type := SessionType.initial },
                 { date := 2 * 86400000, completed := false, interval := 2,
                   type := SessionType.standard } ],
    nextReviewDate := NextReview.due 86400000, mastery := 0 }

/-- A one-session topic (pending session at the epoch). -/
def singleTopic : Topic :=
  { id := "b", name := "s", addedDate := 0, complexity := 5, subtopics := [], summary := "",
    reviews := [ { date := 0, completed := false, interval := 1,
                   type := SessionType.initial } ],
    nextReviewDate := NextReview.due 0, mastery := 0 }

/-- A topic with one completed and one pending session. -/
def mixedTopic : Topic :=
  { id := "c", name := "m", addedDate := 0, complexity := 5, subtopics := [], summary := "",
    reviews := [ { date := 0, completed := true, completedDate := some 0, interval := 1,
                   type := SessionType.initial, rating := some Rating.easy },
                 { date := 2 * 86400000, completed := false, interval := 2,
                   type := SessionType.standard } ],
    nextReviewDate := NextReview.due (2 * 86400000), mastery := 100 }

/-! ### Generic helper lemmas -/

theorem findIdx?_some_spec {α : Type} {p : α → Bool} {l : List α} {i : ℕ}
    (h : List.findIdx? p l = some i) : ∃ hlt : i < l.length, p l[i] = true := by
  rcases List.findIdx?_eq_some_iff_findIdx_eq.1 h with ⟨hlt, hidx⟩
  subst hidx
  exact ⟨hlt, List.findIdx_getElem (w := hlt)⟩

theorem completeReview_eq_at {now reviewDate : ℚ} {rating : Rating} {t : Topic} {i : ℕ}
    (hi : List.findIdx? (fun r => decide (r.date = reviewDate)) t.reviews = some i) :
    completeReview now reviewDate rating t = completeReviewAt now rating i t := by
  rw [completeReview, hi]

theorem completeReviewAt_reviews {now : ℚ} {rating : Rating} {i : ℕ} {t : Topic}
    {r0 : ReviewSession} (h : t.reviews[i]? = some r0) :
    (completeReviewAt now rating i t).reviews =
      applyRating now rating i (t.reviews.set i (markCompleted now rating r0)) := by
  rw [completeReviewAt, h]

theorem completeReviewAt_mastery {now : ℚ} {rating : Rating} {i : ℕ} {t : Topic}
    {r0 : ReviewSession} (h : t.reviews[i]? = some r0) :
    (completeReviewAt now rating i t).mastery =
      masteryOf (applyRating now rating i (t.reviews.set i (markCompleted now rating r0))) := by
  rw [completeReviewAt, h]

theorem easyStretch_eq_at {now : ℚ} {i : ℕ} {l : List ReviewSession} {j : ℕ}
    (h : findNextIdx l i = some j) : easyStretch now i l = easyUpdateAt now l j := by
  rw [easyStretch, h]

theorem easyStretch_eq_self {now : ℚ} {i : ℕ} {l : List ReviewSession}
    (h : findNextIdx l i = none) : easyStretch now i l = l := by
  rw [easyStretch, h]

theorem easyUpdateAt_eq {now : ℚ} {l : List ReviewSession} {j : ℕ} {nxt : ReviewSession}
    (h : l[j]? = some nxt) :
    easyUpdateAt now l j =
      sortByDate (l.set j
        { nxt with date := now + (nxt.date - now) * (13/10),
                   interval := ⌈(nxt.date - now) * (13/10) / msPerDay⌉ }) := by
  rw [easyUpdateAt, h]

theorem mem_set_of_ne {α : Type} {l : List α} {i : ℕ} {v s : α}
    (hs : s ∈ l) (hi : i < l.length) (hne : s ≠ l[i]) : s ∈ l.set i v := by
  rcases List.mem_iff_getElem.1 hs with ⟨j, hj, hjs⟩
  have hij : i ≠ j := by
    rintro rfl
    exact hne hjs.symm
  refine List.mem_iff_getElem.2 ⟨j, by simpa using hj, ?_⟩
  rw [List.getElem_set_ne hij]
  exact hjs

theorem pairwise_set_date_eq {l : List ReviewSession} {i : ℕ} {v : ReviewSession}
    (hs : List.Pairwise (fun a b : ReviewSession => a.date ≤ b.date) l)
    (hi : i < l.length) (hd : v.date = (l[i]).date) :
    List.Pairwise (fun a b : ReviewSession => a.date ≤ b.date) (l.set i v) := by
  rw [List.pairwise_iff_getElem] at hs ⊢
  intro a b ha hb hab
  have ha' : a < l.length := by simpa using ha
  have hb' : b < l.length := by simpa using hb
  have h1 : ((l.set i v)[a]).date = (l[a]).date := by
    rw [List.getElem_set]
    rcases eq_or_ne i a with h | h
    · subst h; simpa using hd
    · simp [h]
  have h2 : ((l.set i v)[b]).date = (l[b]).date := by
    rw [List.getElem_set]
    rcases eq_or_ne i b with h | h
    · subst h; simpa using hd
    · simp [h]
  rw [h1, h2]
  exact hs a b ha' hb' hab

theorem sortByDate_perm (l : List ReviewSession) : (sortByDate l).Perm l :=
  List.perm_insertionSort _ l

theorem sortByDate_sorted (l : List ReviewSession) :
    List.Pairwise (fun a b : ReviewSession => a.date ≤ b.date) (sortByDate l) := by
  haveI : IsTotal ReviewSession (fun a b : ReviewSession => a.date ≤ b.date) :=
    ⟨fun a b => le_total a.date b.date⟩
  haveI : IsTrans ReviewSession (fun a b : ReviewSession => a.date ≤ b.date) :=
    ⟨fun a b c hab hbc => le_trans hab hbc⟩
  exact List.sorted_insertionSort _ l

/-! ### Lemmas about the generation loop -/

theorem genLoop_zero (m : ℚ) (e : Option ℚ) (iv rd : ℚ) (b : Bool) :
    genLoop m e 0 iv rd b = [] := rfl

theorem genLoop_succ (m : ℚ) (e : Option ℚ) (f : ℕ) (iv rd : ℚ) (b : Bool) :
    genLoop m e (f + 1) iv rd b =
      if (match e with | some x => decide (x < rd) | none => false) then []
      else { date := rd, completed := false, interval := jsRound iv,
             type := if b then SessionType.initial else SessionType.standard }
           :: genLoop m e f (iv * m) (rd + (⌈iv * m⌉ : ℚ) * msPerDay) false := rfl

theorem one_le_ceil_mul {iv m : ℚ} (him : 13/10 ≤ m) (hiv : 1 ≤ iv) :
    (1 : ℤ) ≤ ⌈iv * m⌉ := by
  have h1 : (1 : ℚ) ≤ iv * m := by nlinarith
  have h2 := Int.le_ceil (iv * m)
  exact_mod_cast le_trans h1 h2

theorem genLoop_date_ge (m : ℚ) (e : Option ℚ) (him : 13/10 ≤ m) :
    ∀ (f : ℕ) (iv rd : ℚ) (b : Bool), 1 ≤ iv →
      ∀ r ∈ genLoop m e f iv rd b, rd ≤ r.date := by
  intro f
  induction f with
  | zero => intro iv rd b _ r hr; simp [genLoop_zero] at hr
  | succ f ih =>
    intro iv rd b hiv r hr
    rw [genLoop_succ] at hr
    split at hr
    · simp at hr
    · rcases List.mem_cons.1 hr with rfl | h
      · exact le_refl _
      · have hq : (1 : ℚ) ≤ (⌈iv * m⌉ : ℚ) := by exact_mod_cast one_le_ceil_mul him hiv
        have h1 := ih (iv * m) (rd + (⌈iv * m⌉ : ℚ) * msPerDay) false (by nlinarith) r h
        have hms : msPerDay = 86400000 := rfl
        nlinarith [h1]

theorem genLoop_pairwise (m : ℚ) (e : Option ℚ) (him : 13/10 ≤ m) :
    ∀ (f : ℕ) (iv rd : ℚ) (b : Bool), 1 ≤ iv →
      List.Pairwise (fun a b : ReviewSession => a.date < b.date) (genLoop m e f iv rd b) := by
  intro f
  induction f with
  | zero => intro iv rd b _; simp [genLoop_zero]
  | succ f ih =>
    intro iv rd b hiv
    rw [genLoop_succ]
    split
    · exact List.Pairwise.nil
    · refine List.Pairwise.cons ?_ (ih _ _ _ (by nlinarith))
      intro r hr
      have hq : (1 : ℚ) ≤ (⌈iv * m⌉ : ℚ) := by exact_mod_cast one_le_ceil_mul him hiv
      have h1 := genLoop_date_ge m e him f (iv * m) (rd + (⌈iv * m⌉ : ℚ) * msPerDay) false
        (by nlinarith) r hr
      have hms : msPerDay = 86400000 := rfl
      show rd < r.date
      nlinarith [h1]

theorem genLoop_standard (m : ℚ) (e : Option ℚ) :
    ∀ (f : ℕ) (iv rd : ℚ), ∀ r ∈ genLoop m e f iv rd false,
      r.type = SessionType.standard := by
  intro f
  induction f with
  | zero => intro iv rd r hr; simp [genLoop_zero] at hr
  | succ f ih =>
    intro iv rd r hr
    rw [genLoop_succ] at hr
    split at hr
    · simp at hr
    · rcases List.mem_cons.1 hr with rfl | h
      · rfl
      · exact ih _ _ r h

theorem genLoop_length_le (m : ℚ) (e : Option ℚ) :
    ∀ (f : ℕ) (iv rd : ℚ) (b : Bool), (genLoop m e f iv rd b).length ≤ f := by
  intro f
  induction f with
  | zero => intro iv rd b; simp [genLoop_zero]
  | succ f ih =>
    intro iv rd b
    rw [genLoop_succ]
    split
    · simp
    · simpa using Nat.succ_le_succ (ih _ _ _)

/-! ### C3 -/

/-- C3: for every complexity in [1,10] and no exam date, `generateSchedule`
returns sessions with strictly increasing dates, whose first session has
type `initial`, all later sessions have type `standard`, and whose length
is at most 20. -/
theorem generateSchedule_no_exam_spec (now complexity : ℚ)
    (hc1 : 1 ≤ complexity) (hc2 : complexity ≤ 10) :
    List.Pairwise (fun a b : ReviewSession => a.date < b.date)
        (generateSchedule now complexity none) ∧
    (∃ first rest, generateSchedule now complexity none = first :: rest ∧
        first.type = SessionType.initial ∧
        ∀ r ∈ rest, r.type = SessionType.standard) ∧
    (generateSchedule now complexity none).length ≤ 20 := by
  have hm : 13/10 ≤ multiplierFor complexity := le_max_left _ _
  have hgen : generateSchedule now complexity none =
      genLoop (multiplierFor complexity) none 20 1 (now + msPerDay) true := rfl
  have h20 : (20 : ℕ) = 19 + 1 := rfl
  refine ⟨?_, ?_, ?_⟩
  · rw [hgen]
    exact genLoop_pairwise _ _ hm 20 1 _ true le_rfl
  · rw [hgen, h20, genLoop_succ]
    simp only [Bool.false_eq_true, if_false]
    refine ⟨_, _, rfl, rfl, ?_⟩
    exact genLoop_standard _ _ 19 _ _
  · rw [hgen]
    exact genLoop_length_le _ _ 20 1 _ true

/-- Witness for C3 at complexity 5. -/
theorem generateSchedule_no_exam_spec_witness :
    List.Pairwise (fun a b : ReviewSession => a.date < b.date)
        (generateSchedule 0 5 none) ∧
    (∃ first rest, generateSchedule 0 5 none = first :: rest ∧
        first.type = SessionType.initial ∧
        ∀ r ∈ rest, r.type = SessionType.standard) ∧
    (generateSchedule 0 5 none).length ≤ 20 :=
  generateSchedule_no_exam_spec 0 5 (by decide) (by decide)

/-! ### C4: review lists are sorted at rest -/

theorem pairwise_le_of_append_last {l ys : List ReviewSession} {lastReview : ReviewSession}
    (hl : List.Pairwise (fun a b : ReviewSession => a.date ≤ b.date) l)
    (hsplit : l = ys ++ [lastReview]) :
    ∀ a ∈ l, a.date ≤ lastReview.date := by
  subst hsplit
  intro a ha
  rcases List.mem_append.1 ha with h | h
  · exact (List.pairwise_append.1 hl).2.2 a h lastReview (List.mem_singleton_self _)
  · rw [List.mem_singleton.1 h]

theorem examReconcile_sorted (e : ℚ) (l : List ReviewSession)
    (hl : List.Pairwise (fun a b : ReviewSession => a.date ≤ b.date) l) :
    List.Pairwise (fun a b : ReviewSession => a.date ≤ b.date) (examReconcile e l) := by
  rw [examReconcile]
  cases hlast : l.getLast? with
  | none => simp
  | some lastReview =>
    rcases List.getLast?_eq_some_iff.1 hlast with ⟨ys, hsplit⟩
    simp only []
    split
    · split
      · rename_i hgap hdate
        refine List.pairwise_append.2 ⟨hl, List.pairwise_singleton _ _, ?_⟩
        intro a ha b hb
        rw [List.mem_singleton.1 hb]
        exact le_trans (pairwise_le_of_append_last hl hsplit a ha) (le_of_lt hdate)
      · exact hl
    · exact hl

theorem generateSchedule_sorted (now complexity : ℚ) (examDate : Option ℚ) :
    List.Pairwise (fun a b : ReviewSession => a.date ≤ b.date)
      (generateSchedule now complexity examDate) := by
  have hm : 13/10 ≤ multiplierFor complexity := le_max_left _ _
  have hpair : List.Pairwise (fun a b : ReviewSession => a.date ≤ b.date)
      (genLoop (multiplierFor complexity) examDate 20 1 (now + msPerDay) true) :=
    (genLoop_pairwise _ _ hm 20 1 _ true le_rfl).imp (fun h => le_of_lt h)
  cases examDate with
  | none => exact hpair
  | some e => exact examReconcile_sorted e _ hpair

theorem easyUpdateAt_sorted (now : ℚ) (l : List ReviewSession) (j : ℕ)
    (hl : List.Pairwise (fun a b : ReviewSession => a.date ≤ b.date) l) :
    List.Pairwise (fun a b : ReviewSession => a.date ≤ b.date) (easyUpdateAt now l j) := by
  rw [easyUpdateAt]
  cases hj : l[j]? with
  | none => exact hl
  | some nxt => exact sortByDate_sorted _

theorem easyStretch_sorted (now : ℚ) (i : ℕ) (l : List ReviewSession)
    (hl : List.Pairwise (fun a b : ReviewSession => a.date ≤ b.date) l) :
    List.Pairwise (fun a b : ReviewSession => a.date ≤ b.date) (easyStretch now i l) := by
  rw [easyStretch]
  cases hnx : findNextIdx l i with
  | none => exact hl
  | some j => exact easyUpdateAt_sorted now l j hl

theorem applyRating_sorted (now : ℚ) (rating : Rating) (i : ℕ) (l : List ReviewSession)
    (hl : List.Pairwise (fun a b : ReviewSession => a.date ≤ b.date) l) :
    List.Pairwise (fun a b : ReviewSession => a.date ≤ b.date) (applyRating now rating i l) := by
  cases rating with
  | hard =>
    rw [applyRating]
    split
    · exact hl
    · exact sortByDate_sorted _
  | easy => exact easyStretch_sorted now i l hl
  | good => exact hl

theorem completeReviewAt_sorted (now : ℚ) (rating : Rating) (i : ℕ) (t : Topic)
    (h : List.Pairwise (fun a b : ReviewSession => a.date ≤ b.date) t.reviews) :
    List.Pairwise (fun a b : ReviewSession => a.date ≤ b.date)
      (completeReviewAt now rating i t).reviews := by
  rw [completeReviewAt]
  cases hr0 : t.reviews[i]? with
  | none => exact h
  | some r0 =>
    rcases List.getElem?_eq_some_iff.1 hr0 with ⟨hi, heq⟩
    have hd : (markCompleted now rating r0).date = (t.reviews[i]).date := by
      rw [heq, markCompleted]
    exact applyRating_sorted now rating i _ (pairwise_set_date_eq h hi hd)

theorem completeReview_sorted (now reviewDate : ℚ) (rating : Rating) (t : Topic)
    (h : List.Pairwise (fun a b : ReviewSession => a.date ≤ b.date) t.reviews) :
    List.Pairwise (fun a b : ReviewSession => a.date ≤ b.date)
      (completeReview now reviewDate rating t).reviews := by
  rw [completeReview]
  cases hfind : List.findIdx? (fun r => decide (r.date = reviewDate)) t.reviews with
  | none => exact h
  | some i => exact completeReviewAt_sorted now rating i t h

theorem markReviewComplete_mem_sorted (now : ℚ) (topicId : String) (reviewDate : ℚ)
    (rating : Rating) (topics : List Topic)
    (h : ∀ t ∈ topics, List.Pairwise (fun a b : ReviewSession => a.date ≤ b.date) t.reviews) :
    ∀ t' ∈ markReviewComplete now topicId reviewDate rating topics,
      List.Pairwise (fun a b : ReviewSession => a.date ≤ b.date) t'.reviews := by
  intro t' ht'
  rw [markReviewComplete] at ht'
  rcases List.mem_map.1 ht' with ⟨t, ht, rfl⟩
  by_cases hid : t.id = topicId
  · simpa [hid] using completeReview_sorted now reviewDate rating t (h t ht)
  · simpa [hid] using h t ht

/-- C4: every topic at rest has its review list sorted by ascending date:
schedule generation produces an ascending list by construction, and every
completion (through the re-sorts of the `hard` and `easy` branches)
preserves sortedness, both per topic and over the whole collection. -/
theorem reviews_sorted_at_rest :
    (∀ (now complexity : ℚ) (examDate : Option ℚ),
        List.Pairwise (fun a b : ReviewSession => a.date ≤ b.date)
          (generateSchedule now complexity examDate)) ∧
    (∀ (now reviewDate : ℚ) (rating : Rating) (t : Topic),
        List.Pairwise (fun a b : ReviewSession => a.date ≤ b.date) t.reviews →
        List.Pairwise (fun a b : ReviewSession => a.date ≤ b.date)
          (completeReview now reviewDate rating t).reviews) ∧
    (∀ (now : ℚ) (topicId : String) (reviewDate : ℚ) (rating : Rating) (topics : List Topic),
        (∀ t ∈ topics, List.Pairwise (fun a b : ReviewSession => a.date ≤ b.date) t.reviews) →
        ∀ t' ∈ markReviewComplete now topicId reviewDate rating topics,
          List.Pairwise (fun a b : ReviewSession => a.date ≤ b.date) t'.reviews) :=
  ⟨generateSchedule_sorted, completeReview_sorted, markReviewComplete_mem_sorted⟩

/-- Witness for C4: a generated schedule with an exam date is sorted, and
completing the sample topic's first session with `hard` (which inserts a
recovery session and re-sorts) leaves a sorted list. -/
theorem reviews_sorted_at_rest_witness :
    List.Pairwise (fun a b : ReviewSession => a.date ≤ b.date)
      (generateSchedule 0 5 (some (30 * 86400000))) ∧
    List.Pairwise (fun a b : ReviewSession => a.date ≤ b.date)
      (completeReview (5 * 86400000) 86400000 Rating.hard sampleTopic).reviews :=
  ⟨reviews_sorted_at_rest.1 0 5 (some (30 * 86400000)),
   reviews_sorted_at_rest.2.1 (5 * 86400000) 86400000 Rating.hard sampleTopic (by decide)⟩

/-! ### C9: stale references are silent no-ops -/

/-- C9: completing a review whose target date matches no session of the
targeted topic returns the collection unchanged, and deleting a topic id
not present in the collection returns the collection unchanged. -/
theorem stale_reference_noop :
    (∀ (now : ℚ) (topicId : String) (reviewDate : ℚ) (rating : Rating) (topics : List Topic),
        (∀ t ∈ topics, t.id = topicId → ∀ r ∈ t.reviews, r.date ≠ reviewDate) →
        markReviewComplete now topicId reviewDate rating topics = topics) ∧
    (∀ (id : String) (topics : List Topic),
        (∀ t ∈ topics, t.id ≠ id) → deleteTopic id topics = topics) := by
  constructor
  · intro now topicId reviewDate rating topics h
    rw [markReviewComplete]
    have hpt : ∀ t ∈ topics,
        (if t.id = topicId then completeReview now reviewDate rating t else t) = t := by
      intro t ht
      by_cases hid : t.id = topicId
      · rw [if_pos hid, completeReview]
        have hnone : List.findIdx? (fun r => decide (r.date = reviewDate)) t.reviews = none :=
          List.findIdx?_eq_none_iff.2 (fun r hr => by simpa using h t ht hid r hr)
        rw [hnone]
      · rw [if_neg hid]
    exact (List.map_congr_left hpt).trans (List.map_id topics)
  · intro id topics h
    rw [deleteTopic]
    exact List.filter_eq_self.2 (fun t ht => by simpa using h t ht)

/-- Witness for C9: a completion aimed at a date no session has, and a
deletion of an id no topic has, both leave the collection unchanged. -/
theorem stale_reference_noop_witness :
    markReviewComplete 0 "a" 777 Rating.good [sampleTopic] = [sampleTopic] ∧
    deleteTopic "b" [sampleTopic] = [sampleTopic] :=
  ⟨stale_reference_noop.1 0 "a" 777 Rating.good [sampleTopic] (by decide),
   stale_reference_noop.2 "b" [sampleTopic] (by decide)⟩

/-! ### C10: frame conditions of markReviewComplete -/

theorem completeReviewAt_fields (now : ℚ) (rating : Rating) (i : ℕ) (t : Topic) :
    (completeReviewAt now rating i t).id = t.id ∧
    (completeReviewAt now rating i t).name = t.name ∧
    (completeReviewAt now rating i t).addedDate = t.addedDate ∧
    (completeReviewAt now rating i t).examDate = t.examDate ∧
    (completeReviewAt now rating i t).complexity = t.complexity ∧
    (completeReviewAt now rating i t).subtopics = t.subtopics ∧
    (completeReviewAt now rating i t).summary = t.summary ∧
    (completeReviewAt now rating i t).notes = t.notes := by
  rw [completeReviewAt]
  cases hr0 : t.reviews[i]? with
  | none => exact ⟨rfl, rfl, rfl, rfl, rfl, rfl, rfl, rfl⟩
  | some r0 => exact ⟨rfl, rfl, rfl, rfl, rfl, rfl, rfl, rfl⟩

theorem completeReview_fields (now reviewDate : ℚ) (rating : Rating) (t : Topic) :
    (completeReview now reviewDate rating t).id = t.id ∧
    (completeReview now reviewDate rating t).name = t.name ∧
    (completeReview now reviewDate rating t).addedDate = t.addedDate ∧
    (completeReview now reviewDate rating t).examDate = t.examDate ∧
    (completeReview now reviewDate rating t).complexity = t.complexity ∧
    (completeReview now reviewDate rating t).subtopics = t.subtopics ∧
    (completeReview now reviewDate rating t).summary = t.summary ∧
    (completeReview now reviewDate rating t).notes = t.notes := by
  rw [completeReview]
  cases hfind : List.findIdx? (fun r => decide (r.date = reviewDate)) t.reviews with
  | none => exact ⟨rfl, rfl, rfl, rfl, rfl, rfl, rfl, rfl⟩
  | some i => exact completeReviewAt_fields now rating i t

/-- C10: `markReviewComplete` keeps the collection's length, leaves every
topic with a different id unchanged, and on the targeted topic changes at
most the `reviews`, `mastery` and `nextReviewDate` fields — `id`, `name`,
`addedDate`, `examDate`, `complexity`, `subtopics`, `summary` and `notes`
are untouched. -/
theorem markReviewComplete_frame (now : ℚ) (topicId : String) (reviewDate : ℚ)
    (rating : Rating) (topics : List Topic) :
    (markReviewComplete now topicId reviewDate rating topics).length = topics.length ∧
    ∀ (k : ℕ) (t : Topic), topics[k]? = some t →
      ∃ t', (markReviewComplete now topicId reviewDate rating topics)[k]? = some t' ∧
        (t.id ≠ topicId → t' = t) ∧
        t'.id = t.id ∧ t'.name = t.name ∧ t'.addedDate = t.addedDate ∧
        t'.examDate = t.examDate ∧ t'.complexity = t.complexity ∧
        t'.subtopics = t.subtopics ∧ t'.summary = t.summary ∧ t'.notes = t.notes := by
  constructor
  · rw [markReviewComplete]
    simp
  · intro k t hk
    rw [markReviewComplete, List.getElem?_map, hk]
    simp only [Option.map_some']
    refine ⟨_, rfl, fun hne => by rw [if_neg hne], ?_⟩
    by_cases hid : t.id = topicId
    · rw [if_pos hid]
      exact completeReview_fields now reviewDate rating t
    · rw [if_neg hid]
      exact ⟨rfl, rfl, rfl, rfl, rfl, rfl, rfl, rfl⟩

/-- Witness for C10 on a one-topic collection whose topic is targeted. -/
theorem markReviewComplete_frame_witness :
    ∃ t', (markReviewComplete 0 "a" 86400000 Rating.good [sampleTopic])[0]? = some t' ∧
      (sampleTopic.id ≠ "a" → t' = sampleTopic) ∧
      t'.id = sampleTopic.id ∧ t'.name = sampleTopic.name ∧
      t'.addedDate = sampleTopic.addedDate ∧ t'.examDate = sampleTopic.examDate ∧
      t'.complexity = sampleTopic.complexity ∧ t'.subtopics = sampleTopic.subtopics ∧
      t'.summary = sampleTopic.summary ∧ t'.notes = sampleTopic.notes :=
  (markReviewComplete_frame 0 "a" 86400000 Rating.good [sampleTopic]).2 0 sampleTopic rfl

/-! ### C7: mastery formula and bounds -/

/-- C7: after every completion that finds its target session, the stored
mastery is exactly `masteryOf` of the resulting review list; `masteryOf`
is 0 with no completed session and always lies in [0, 100]. -/
theorem mastery_spec :
    (∀ (now reviewDate : ℚ) (rating : Rating) (t : Topic) (i : ℕ),
        List.findIdx? (fun r => decide (r.date = reviewDate)) t.reviews = some i →
        (completeReview now reviewDate rating t).mastery =
          masteryOf (completeReview now reviewDate rating t).reviews) ∧
    (∀ l : List ReviewSession,
        (l.filter (fun r => r.completed)).length = 0 → masteryOf l = 0) ∧
    (∀ l : List ReviewSession, 0 ≤ masteryOf l ∧ masteryOf l ≤ 100) := by
  refine ⟨?_, ?_, ?_⟩
  · intro now reviewDate rating t i hi
    rcases findIdx?_some_spec hi with ⟨hlt, hp⟩
    rw [completeReview_eq_at hi,
        completeReviewAt_mastery (List.getElem?_eq_getElem hlt),
        completeReviewAt_reviews (List.getElem?_eq_getElem hlt)]
  · intro l h
    simp [masteryOf, h]
  · intro l
    simp only [masteryOf]
    split
    · next hc =>
      have hgc : (l.filter (fun r =>
          r.completed && (decide (r.rating = some Rating.good) ||
                          decide (r.rating = some Rating.easy)))).length ≤
          (l.filter (fun r => r.completed)).length := by
        rw [← List.countP_eq_length_filter, ← List.countP_eq_length_filter]
        exact List.countP_mono_left (fun r hr hpr => by
          simp only [Bool.and_eq_true] at hpr
          exact hpr.1)
      set g := (l.filter (fun r =>
          r.completed && (decide (r.rating = some Rating.good) ||
                          decide (r.rating = some Rating.easy)))).length with hgdef
      set c := (l.filter (fun r => r.completed)).length with hcdef
      have hc' : (0 : ℚ) < (c : ℚ) := by exact_mod_cast hc
      have hfrac : (0 : ℚ) ≤ (g : ℚ) / (c : ℚ) := by positivity
      have hle1 : (g : ℚ) / (c : ℚ) ≤ 1 := by
        rw [div_le_one hc']
        exact_mod_cast hgc
      constructor
      · rw [jsRound]
        refine Int.floor_nonneg.2 ?_
        nlinarith
      · rw [jsRound]
        have hub : (g : ℚ) / (c : ℚ) * 100 + 1/2 ≤ 201/2 := by nlinarith
        calc ⌊(g : ℚ) / (c : ℚ) * 100 + 1/2⌋ ≤ ⌊(201/2 : ℚ)⌋ := Int.floor_le_floor hub
          _ = 100 := by norm_num
    · exact ⟨le_refl 0, by norm_num⟩

/-- Witness for C7 at the sample topic's first session. -/
theorem mastery_spec_witness :
    (completeReview 0 86400000 Rating.good sampleTopic).mastery =
      masteryOf (completeReview 0 86400000 Rating.good sampleTopic).reviews ∧
    masteryOf [] = 0 ∧
    (0 ≤ masteryOf sampleTopic.reviews ∧ masteryOf sampleTopic.reviews ≤ 100) :=
  ⟨mastery_spec.1 0 86400000 Rating.good sampleTopic 0 (by decide),
   mastery_spec.2.1 [] rfl,
   mastery_spec.2.2 sampleTopic.reviews⟩

/-! ### C5: the hard branch inserts a recovery session exactly when no
session falls on tomorrow's calendar day -/

theorem applyRating_hard_true {now : ℚ} {i : ℕ} {l : List ReviewSession}
    (h : l.any (fun r => decide (dayOf r.date = dayOf (now + msPerDay))) = true) :
    applyRating now Rating.hard i l = l := by
  rw [applyRating]
  simp [h]

theorem applyRating_hard_false {now : ℚ} {i : ℕ} {l : List ReviewSession}
    (h : l.any (fun r => decide (dayOf r.date = dayOf (now + msPerDay))) = false) :
    applyRating now Rating.hard i l =
      sortByDate (l ++ [recoverySession (now + msPerDay)]) := by
  rw [applyRating]
  simp [h]

/-- C5: completing a session with `hard` inserts a pending `recovery`
session dated one day after now with interval 1 exactly when no session
(pending or completed) already falls on that calendar day; afterwards
some session always falls on that day, so a second `hard` completion the
same day inserts nothing. -/
theorem completeReview_hard_spec (now reviewDate : ℚ) (t : Topic) (i : ℕ)
    (hi : List.findIdx? (fun r => decide (r.date = reviewDate)) t.reviews = some i) :
    ∃ r0, t.reviews[i]? = some r0 ∧
      ((t.reviews.set i (markCompleted now Rating.hard r0)).any
          (fun r => decide (dayOf r.date = dayOf (now + msPerDay))) = true →
        (completeReview now reviewDate Rating.hard t).reviews =
          t.reviews.set i (markCompleted now Rating.hard r0)) ∧
      ((t.reviews.set i (markCompleted now Rating.hard r0)).any
          (fun r => decide (dayOf r.date = dayOf (now + msPerDay))) = false →
        (completeReview now reviewDate Rating.hard t).reviews.Perm
          (t.reviews.set i (markCompleted now Rating.hard r0)
            ++ [recoverySession (now + msPerDay)])) ∧
      (completeReview now reviewDate Rating.hard t).reviews.any
        (fun r => decide (dayOf r.date = dayOf (now + msPerDay))) = true ∧
      recoverySession (now + msPerDay) =
        { date := now + msPerDay, completed := false, completedDate := none,
          interval := 1, type := SessionType.recovery, rating := none } := by
  rcases findIdx?_some_spec hi with ⟨hlt, hp⟩
  have hget := List.getElem?_eq_getElem hlt
  have hred : (completeReview now reviewDate Rating.hard t).reviews =
      applyRating now Rating.hard i
        (t.reviews.set i (markCompleted now Rating.hard (t.reviews[i]))) := by
    rw [completeReview_eq_at hi, completeReviewAt_reviews hget]
  refine ⟨t.reviews[i], hget, ?_, ?_, ?_, rfl⟩
  · intro h
    rw [hred, applyRating_hard_true h]
  · intro h
    rw [hred, applyRating_hard_false h]
    exact sortByDate_perm _
  · rw [hred]
    cases hany : (t.reviews.set i (markCompleted now Rating.hard (t.reviews[i]))).any
        (fun r => decide (dayOf r.date = dayOf (now + msPerDay))) with
    | true =>
      rw [applyRating_hard_true hany]
      exact hany
    | false =>
      rw [applyRating_hard_false hany]
      refine List.any_eq_true.2 ⟨recoverySession (now + msPerDay), ?_, by simp [recoverySession]⟩
      exact (sortByDate_perm _).mem_iff.2
        (List.mem_append.2 (Or.inr (List.mem_singleton_self _)))

/-- Witness for C5: completing the sample topic's first session with
`hard` five days in, where no session falls on day six. -/
theorem completeReview_hard_spec_witness :
    ∃ r0, sampleTopic.reviews[0]? = some r0 ∧
      ((sampleTopic.reviews.set 0 (markCompleted (5 * 86400000) Rating.hard r0)).any
          (fun r => decide (dayOf r.date = dayOf (5 * 86400000 + msPerDay))) = true →
        (completeReview (5 * 86400000) 86400000 Rating.hard sampleTopic).reviews =
          sampleTopic.reviews.set 0 (markCompleted (5 * 86400000) Rating.hard r0)) ∧
      ((sampleTopic.reviews.set 0 (markCompleted (5 * 86400000) Rating.hard r0)).any
          (fun r => decide (dayOf r.date = dayOf (5 * 86400000 + msPerDay))) = false →
        (completeReview (5 * 86400000) 86400000 Rating.hard sampleTopic).reviews.Perm
          (sampleTopic.reviews.set 0 (markCompleted (5 * 86400000) Rating.hard r0)
            ++ [recoverySession (5 * 86400000 + msPerDay)])) ∧
      (completeReview (5 * 86400000) 86400000 Rating.hard sampleTopic).reviews.any
        (fun r => decide (dayOf r.date = dayOf (5 * 86400000 + msPerDay))) = true ∧
      recoverySession (5 * 86400000 + msPerDay) =
        { date := 5 * 86400000 + msPerDay, completed := false, completedDate := none,
          interval := 1, type := SessionType.recovery, rating := none } :=
  completeReview_hard_spec (5 * 86400000) 86400000 sampleTopic 0 (by decide)

/-! ### C2: rating/completedDate immutability (corrected) -/

theorem findNextIdx_spec {l : List ReviewSession} {i j : ℕ}
    (h : findNextIdx l i = some j) :
    ∃ hlt : j < l.length,
      (l[j]).completed = false ∧ (l[j]).type ≠ SessionType.final := by
  rw [findNextIdx] at h
  rcases Option.map_eq_some'.1 h with ⟨k, hk, hkj⟩
  rcases findIdx?_some_spec hk with ⟨hklt, hpk⟩
  have hklen : k < l.length - (i + 1) := by simpa using hklt
  have hj' : (i + 1) + k = j := by omega
  have hsome : l[j]? = some ((List.drop (i + 1) l)[k]) := by
    rw [← hj', ← List.getElem?_drop]
    exact List.getElem?_eq_getElem hklt
  rcases List.getElem?_eq_some_iff.1 hsome with ⟨hjl, hjeq⟩
  simp only [Bool.and_eq_true, Bool.not_eq_true', decide_eq_true_eq] at hpk
  refine ⟨hjl, ?_, ?_⟩
  · rw [hjeq]
    exact hpk.1
  · rw [hjeq]
    simpa using hpk.2

theorem applyRating_mem_completed (now : ℚ) (rating : Rating) (i : ℕ)
    (l : List ReviewSession) (s : ReviewSession) (hs : s ∈ l)
    (hcomp : s.completed = true) : s ∈ applyRating now rating i l := by
  cases rating with
  | hard =>
    rw [applyRating]
    split
    · exact hs
    · exact (sortByDate_perm _).mem_iff.2 (List.mem_append.2 (Or.inl hs))
  | easy =>
    show s ∈ easyStretch now i l
    cases hnx : findNextIdx l i with
    | none =>
      rw [easyStretch_eq_self hnx]
      exact hs
    | some j =>
      rcases findNextIdx_spec hnx with ⟨hjl, hpend, hnf⟩
      rw [easyStretch_eq_at hnx, easyUpdateAt_eq (List.getElem?_eq_getElem hjl)]
      refine (sortByDate_perm _).mem_iff.2 ?_
      apply mem_set_of_ne hs hjl
      intro heq
      rw [heq] at hcomp
      rw [hpend] at hcomp
      cases hcomp
  | good => exact hs

/-- C2 counterexample: completing the same session date a second time
overwrites both the stored rating and the stored completion date — after
a `good` completion at time 0 and a `hard` re-completion of the same date
one day later, the session's rating reads `hard` and its completedDate
reads day 1, not the originally stored values. -/
theorem rating_overwrite_counterexample :
    ((completeReview 0 0 Rating.good singleTopic).reviews.map
        (fun r => r.rating)) = [some Rating.good] ∧
    ((completeReview 0 0 Rating.good singleTopic).reviews.map
        (fun r => r.completedDate)) = [some 0] ∧
    ((completeReview 86400000 0 Rating.hard
        (completeReview 0 0 Rating.good singleTopic)).reviews.map
        (fun r => r.rating)) = [some Rating.hard, none] ∧
    ((completeReview 86400000 0 Rating.hard
        (completeReview 0 0 Rating.good singleTopic)).reviews.map
        (fun r => r.completedDate)) = [some 86400000, none] := by
  refine ⟨by decide, by decide, by decide, by decide⟩

/-- C2 (amended): a completed session is preserved verbatim — rating and
completedDate included — by every completion whose target date differs
from that session's date; only re-completing the very same session date
overwrites its rating and completedDate (with the new rating and the new
completion time). -/
theorem completed_session_preserved (now reviewDate : ℚ) (rating : Rating) (t : Topic)
    (s : ReviewSession) (hs : s ∈ t.reviews) (hcomp : s.completed = true)
    (hne : s.date ≠ reviewDate) :
    s ∈ (completeReview now reviewDate rating t).reviews := by
  cases hfind : List.findIdx? (fun r => decide (r.date = reviewDate)) t.reviews with
  | none =>
    rw [completeReview, hfind]
    exact hs
  | some i =>
    rcases findIdx?_some_spec hfind with ⟨hlt, hp⟩
    have hpi : (t.reviews[i]).date = reviewDate := by simpa using hp
    rw [completeReview_eq_at hfind, completeReviewAt_reviews (List.getElem?_eq_getElem hlt)]
    refine applyRating_mem_completed now rating i _ s ?_ hcomp
    apply mem_set_of_ne hs hlt
    intro heq
    refine hne ?_
    rw [heq]
    exact hpi

/-- Witness for C2 (amended): the completed epoch session of the mixed
topic survives, rating and completedDate intact, a `good` completion of
the day-2 session. -/
theorem completed_session_preserved_witness :
    ({ date := 0, completed := true, completedDate := some 0, interval := 1,
       type := SessionType.initial, rating := some Rating.easy } : ReviewSession)
      ∈ (completeReview (2 * 86400000) (2 * 86400000) Rating.good mixedTopic).reviews :=
  completed_session_preserved (2 * 86400000) (2 * 86400000) Rating.good mixedTopic
    _ (by decide) rfl (by decide)

/-! ### C1: easy-rating stretch (corrected) -/

/-- C1 counterexample: in the sample topic (pending sessions on days 1
and 2), completing the day-1 session with `easy` at day 10 moves the
next pending session's due date from day 2 to day -0.4 — the gap formula
`(oldDate - now) * 1.3` is applied to a negative gap, so the due date
strictly decreases instead of strictly increasing. -/
theorem easy_stretch_counterexample :
    ((completeReview (10 * 86400000) 86400000 Rating.easy sampleTopic).reviews.map
        (fun r => r.date)) = [-(2/5 : ℚ) * 86400000, 86400000] ∧
    ((completeReview (10 * 86400000) 86400000 Rating.easy sampleTopic).reviews.all
        (fun r => decide (r.date < 2 * 86400000))) = true ∧
    (sampleTopic.reviews.map (fun r => r.date)) = [86400000, 2 * 86400000] := by
  refine ⟨by decide, by decide, by decide⟩

/-- C1 (amended): when a completion with `easy` finds its target session
and a pending non-final session after it, that session is re-dated so
that `newDate - now = 1.3 * (oldDate - now)` and its interval becomes
`ceil(newGap in days)` (then the list is re-sorted); the due date
strictly increases exactly when the old date was strictly after now — an
overdue next session is instead moved strictly earlier. -/
theorem easy_stretch_spec (now reviewDate : ℚ) (t : Topic) (i : ℕ)
    (hi : List.findIdx? (fun r => decide (r.date = reviewDate)) t.reviews = some i) :
    ∃ r0, t.reviews[i]? = some r0 ∧
      ∀ j : ℕ,
        findNextIdx (t.reviews.set i (markCompleted now Rating.easy r0)) i = some j →
        ∃ nxt, (t.reviews.set i (markCompleted now Rating.easy r0))[j]? = some nxt ∧
          nxt.completed = false ∧ nxt.type ≠ SessionType.final ∧
          (completeReview now reviewDate Rating.easy t).reviews.Perm
            ((t.reviews.set i (markCompleted now Rating.easy r0)).set j
              { nxt with date := now + (nxt.date - now) * (13/10),
                         interval := ⌈(nxt.date - now) * (13/10) / msPerDay⌉ }) ∧
          (now + (nxt.date - now) * (13/10)) - now = (13/10) * (nxt.date - now) ∧
          (now < nxt.date → nxt.date < now + (nxt.date - now) * (13/10)) := by
  rcases findIdx?_some_spec hi with ⟨hlt, hp⟩
  have hget := List.getElem?_eq_getElem hlt
  refine ⟨t.reviews[i], hget, ?_⟩
  intro j hj
  rcases findNextIdx_spec hj with ⟨hjl, hpend, hnf⟩
  refine ⟨_, List.getElem?_eq_getElem hjl, hpend, hnf, ?_, by ring, ?_⟩
  · have hred : (completeReview now reviewDate Rating.easy t).reviews =
        easyStretch now i (t.reviews.set i (markCompleted now Rating.easy (t.reviews[i]))) := by
      rw [completeReview_eq_at hi, completeReviewAt_reviews hget]
      rfl
    rw [hred, easyStretch_eq_at hj, easyUpdateAt_eq (List.getElem?_eq_getElem hjl)]
    exact sortByDate_perm _
  · intro hnow
    linarith

/-- Witness for C1 (amended) at the sample topic, completing the day-1
session with `easy` at the epoch, which stretches the day-2 session. -/
theorem easy_stretch_spec_witness :
    ∃ r0, sampleTopic.reviews[0]? = some r0 ∧
      ∀ j : ℕ,
        findNextIdx (sampleTopic.reviews.set 0 (markCompleted 0 Rating.easy r0)) 0 = some j →
        ∃ nxt, (sampleTopic.reviews.set 0 (markCompleted 0 Rating.easy r0))[j]? = some nxt ∧
          nxt.completed = false ∧ nxt.type ≠ SessionType.final ∧
          (completeReview 0 86400000 Rating.easy sampleTopic).reviews.Perm
            ((sampleTopic.reviews.set 0 (markCompleted 0 Rating.easy r0)).set j
              { nxt with date := 0 + (nxt.date - 0) * (13/10),
                         interval := ⌈(nxt.date - 0) * (13/10) / msPerDay⌉ }) ∧
          (0 + (nxt.date - 0) * (13/10)) - 0 = (13/10) * (nxt.date - 0) ∧
          (0 < nxt.date → nxt.date < 0 + (nxt.date - 0) * (13/10)) :=
  easy_stretch_spec 0 86400000 sampleTopic 0 (by decide)

/-! ### C6: exam-date reconciliation -/

/-- C6: with an exam date, `generateSchedule` yields exactly one `final`
session on the exam date with interval 0 when the loop emitted nothing;
otherwise, writing `gap = ceil((examDate - lastDate) in days)`, a `final`
session dated two days before the exam with interval `gap - 2` is
appended exactly when `gap > 4` and that date is strictly after the last
session. -/
theorem generateSchedule_exam_spec (now complexity e : ℚ) :
    (genLoop (multiplierFor complexity) (some e) 20 1 (now + msPerDay) true = [] →
      generateSchedule now complexity (some e) = [finalSession e 0]) ∧
    (∀ lastReview : ReviewSession,
      (genLoop (multiplierFor complexity) (some e) 20 1 (now + msPerDay) true).getLast? =
        some lastReview →
      ((4 < ⌈(e - lastReview.date) / msPerDay⌉ ∧ lastReview.date < e - 2 * msPerDay →
        generateSchedule now complexity (some e) =
          genLoop (multiplierFor complexity) (some e) 20 1 (now + msPerDay) true ++
            [finalSession (e - 2 * msPerDay) (⌈(e - lastReview.date) / msPerDay⌉ - 2)]) ∧
       (¬(4 < ⌈(e - lastReview.date) / msPerDay⌉ ∧ lastReview.date < e - 2 * msPerDay) →
        generateSchedule now complexity (some e) =
          genLoop (multiplierFor complexity) (some e) 20 1 (now + msPerDay) true))) := by
  have hgen : generateSchedule now complexity (some e) =
      examReconcile e (genLoop (multiplierFor complexity) (some e) 20 1 (now + msPerDay) true) :=
    rfl
  have hrec : ∀ (l : List ReviewSession) (lastReview : ReviewSession),
      l.getLast? = some lastReview →
      examReconcile e l =
        if 4 < ⌈(e - lastReview.date) / msPerDay⌉ then
          if lastReview.date < e - 2 * msPerDay then
            l ++ [finalSession (e - 2 * msPerDay) (⌈(e - lastReview.date) / msPerDay⌉ - 2)]
          else l
        else l := by
    intro l lastReview h
    rw [examReconcile, h]
  constructor
  · intro h
    rw [hgen, h]
    rfl
  · intro lastReview hlast
    rw [hgen, hrec _ lastReview hlast]
    constructor
    · rintro ⟨hgap, hdate⟩
      rw [if_pos hgap, if_pos hdate]
    · intro hcon
      by_cases hgap : 4 < ⌈(e - lastReview.date) / msPerDay⌉
      · have hdate : ¬ lastReview.date < e - 2 * msPerDay := fun hd => hcon ⟨hgap, hd⟩
        rw [if_pos hgap, if_neg hdate]
      · rw [if_neg hgap]

/-- Witness for C6: an exam date before the first candidate session
yields the single `final` session; a 30-day exam with gap 2 after the
day-28 session appends nothing. -/
theorem generateSchedule_exam_spec_witness :
    generateSchedule 0 5 (some 0) = [finalSession 0 0] ∧
    generateSchedule 0 5 (some (30 * 86400000)) =
      genLoop (multiplierFor 5) (some (30 * 86400000)) 20 1 (0 + msPerDay) true :=
  ⟨(generateSchedule_exam_spec 0 5 0).1 (by decide),
   ((generateSchedule_exam_spec 0 5 (30 * 86400000)).2
      { date := 28 * 86400000, completed := false, completedDate := none,
        interval := 13, type := SessionType.standard, rating := none }
      (by decide)).2 (by decide)⟩

/-! ### C8: the 60-day activity heatmap -/

theorem dayOf_sub_days (t : ℚ) (n : ℕ) :
    dayOf (t - (n : ℚ) * msPerDay) = dayOf t - (n : ℤ) := by
  have h : (t - (n : ℚ) * msPerDay) / msPerDay = t / msPerDay - ((n : ℤ) : ℚ) := by
    have hms : (msPerDay : ℚ) ≠ 0 := by norm_num [msPerDay]
    field_simp
    ring
  rw [dayOf, dayOf, h, Int.floor_sub_int]

/-- C8: the heatmap grid has exactly 60 cells, the cell at position `k`
covers the calendar day `today - 59 + k` (so only the trailing 60-day
window ending today appears — a session completed 61 days ago is counted
by no cell), each cell's count is the number of completed sessions
bucketed (by `completedDate`, falling back to `date`) under that day, and
each cell's intensity is the raw count mapped through 0→0, 1–2→1, 3–5→2,
6–8→3, ≥9→4. -/
theorem activityHeatmap_spec (now : ℚ) (topics : List Topic) :
    (activityHeatmap now topics).length = 60 ∧
    (∀ (k : ℕ) (cell : HeatCell), (activityHeatmap now topics)[k]? = some cell →
      cell.day = dayOf now - 59 + (k : ℤ) ∧
      dayOf now - 59 ≤ cell.day ∧ cell.day ≤ dayOf now ∧
      dayOf now - 61 < cell.day ∧
      cell.count = heatCount topics cell.day ∧
      cell.intensity = intensityOf cell.count) ∧
    (∀ c : ℕ,
      (c = 0 → intensityOf c = 0) ∧
      (1 ≤ c → c ≤ 2 → intensityOf c = 1) ∧
      (3 ≤ c → c ≤ 5 → intensityOf c = 2) ∧
      (6 ≤ c → c ≤ 8 → intensityOf c = 3) ∧
      (9 ≤ c → intensityOf c = 4)) := by
  refine ⟨?_, ?_, ?_⟩
  · rw [activityHeatmap]
    simp
  · intro k cell hk
    have hklen : k < 60 := by
      have h1 := (List.getElem?_eq_some_iff.1 hk).1
      simpa [activityHeatmap] using h1
    rw [activityHeatmap, List.getElem?_map,
        List.getElem?_reverse (by simpa using hklen),
        List.length_range, List.getElem?_range (by omega)] at hk
    simp only [Option.map_some'] at hk
    have hcell := Option.some.inj hk
    have hday : cell.day = dayOf now - (59 - k : ℕ) := by
      rw [← hcell, dayOf_sub_days]
    have hcast : ((59 - k : ℕ) : ℤ) = 59 - (k : ℤ) := by omega
    refine ⟨?_, ?_, ?_, ?_, ?_, ?_⟩
    · rw [hday, hcast]
      omega
    · rw [hday, hcast]
      omega
    · rw [hday, hcast]
      omega
    · rw [hday, hcast]
      omega
    · rw [← hcell]
    · rw [← hcell]
  · intro c
    refine ⟨?_, ?_, ?_, ?_, ?_⟩ <;> (intros; rw [intensityOf]; split_ifs <;> omega)

/-- Witness for C8: the empty collection's grid, its first cell (59 days
ago), and a raw count of 9 mapping to intensity 4. -/
theorem activityHeatmap_spec_witness :
    (activityHeatmap 0 []).length = 60 ∧
    (({ day := -59, count := 0, intensity := 0 } : HeatCell).day =
        dayOf 0 - 59 + ((0 : ℕ) : ℤ) ∧
      dayOf 0 - 59 ≤ ({ day := -59, count := 0, intensity := 0 } : HeatCell).day ∧
      ({ day := -59, count := 0, intensity := 0 } : HeatCell).day ≤ dayOf 0 ∧
      dayOf 0 - 61 < ({ day := -59, count := 0, intensity := 0 } : HeatCell).day ∧
      ({ day := -59, count := 0, intensity := 0 } : HeatCell).count =
        heatCount [] ({ day := -59, count := 0, intensity := 0 } : HeatCell).day ∧
      ({ day := -59, count := 0, intensity := 0 } : HeatCell).intensity =
        intensityOf ({ day := -59, count := 0, intensity := 0 } : HeatCell).count) ∧
    intensityOf 9 = 4 :=
  ⟨(activityHeatmap_spec 0 []).1,
   (activityHeatmap_spec 0 []).2.1 0 { day := -59, count := 0, intensity := 0 } (by decide),
   ((activityHeatmap_spec 0 []).2.2 9).2.2.2.2 (by decide)⟩
